import Mathlib

/-!
Verification of the postal-go client library (github.com/sachin-duhan/postal-go).

This file shallowly embeds the library's core components in Lean 4 and proves
properties of them:

* the middleware chain (`internal/middleware/middleware.go`),
* the data types and their JSON encoding (`common/types`),
* message validation (`common/validation/validation.go`),
* URL building and standardization (`common/utils/url.go`),
* the transport request lifecycle (`internal/transport/transport.go`),
* the example retry middleware (`examples/advanced/main.go`),
* the client facade (`client.go`).

Go byte strings are modelled as Lean `String` / `List Char`; Go slices and maps
become Lean lists (a `nil` slice and an empty slice are identified, matching the
repository's own equality helpers, which compare only lengths and elements);
JSON documents are modelled as an inductive `Json` tree, so `json.Marshal`
becomes a function into `Json` (it cannot fail on the struct types used here)
and `json.Unmarshal` a function `Json → Option _` (field lookup is by exact
name, later duplicates win, a JSON `null` leaves the target at its zero value,
unknown fields are ignored, and a shape mismatch is a decode error `none`).
-/

namespace PostalGo

/-! Definitions -/

/-- JSON documents, the wire format.  Numbers are restricted to integers,
which is all the embedded struct types use. -/
inductive Json where
  | null : Json
  | bool (b : Bool) : Json
  | num (n : Int) : Json
  | str (s : String) : Json
  | arr (elems : List Json) : Json
  | obj (fields : List (String × Json)) : Json

/-- A middleware wraps one request executor into another
(`type Middleware func(http.RoundTripper) http.RoundTripper`).
The executor type is a parameter; the transport instantiates it with
`RoundTripper` below. -/
def Middleware (ρ : Type) : Type := ρ → ρ

/-- The chain combinator (`middleware.Chain`): the Go loop walks the list from
the last index down to the first, each step wrapping the accumulated executor,
so the first listed middleware ends up outermost. -/
def Chain {ρ : Type} (middlewares : List (Middleware ρ)) : Middleware ρ :=
  fun next => middlewares.reverse.foldl (fun acc m => m acc) next

/-- An instrumented executor used to observe middleware composition order:
the "request" and "response" are both the accumulated list of observations. -/
def LogExecutor : Type := List String → List String

/-- A middleware that records a pre-hook before delegating inward and a
post-hook after (the shape of the logging/tracing middlewares in the repo). -/
def logHook (tag : String) : Middleware LogExecutor :=
  fun next log => next (log ++ [tag ++ "-pre"]) ++ [tag ++ "-post"]

/-- The innermost executor of the observation-order scenario: it records the
actual execution. -/
def logExec : LogExecutor := fun log => log ++ ["exec"]

/-- Response payload of the API (`types.Result`).  `Data` models
`map[string]interface{}` as an association list of JSON values. -/
structure Result where
  MessageID : String
  Status : String
  Data : List (String × Json)
  Errors : List String

/-- `Result.Success`: the call succeeded iff the status string is "success". -/
def Result.Success (r : Result) : Bool :=
  r.Status == "success"

/-- `Result.Failed`: negation of `Success`. -/
def Result.Failed (r : Result) : Bool :=
  !r.Success

/-- Structured API error (`types.PostalError`).  `StatusCode` carries the HTTP
status; its Go json tag is `-`, so it is never (de)serialized. -/
structure PostalError where
  Code : String
  Message : String
  Details : List (String × Json)
  StatusCode : Nat

/-- `types.NewPostalError`: constructs an error with an initialized empty
details map. -/
def NewPostalError (code message : String) (statusCode : Nat) : PostalError :=
  { Code := code, Message := message, StatusCode := statusCode, Details := [] }

/-- An email attachment (`types.Attachment`). -/
structure Attachment where
  Name : String
  ContentType : String
  Data : String
deriving DecidableEq

/-- An email message (`types.Message`).  Field order and json tags follow the
Go struct: `to`, `cc`, `bcc`, `from`, `sender,omitempty`, `subject`,
`tag,omitempty`, `reply_to,omitempty`, `plain_body,omitempty`,
`html_body,omitempty`, `headers,omitempty`, `attachments,omitempty`. -/
structure Message where
  To : List String
  CC : List String
  BCC : List String
  From : String
  Sender : String
  Subject : String
  Tag : String
  ReplyTo : String
  Body : String
  HTMLBody : String
  Headers : List (String × String)
  Attachments : List Attachment
deriving DecidableEq

/-- A pre-formatted email message (`types.RawMessage`); json tags `mail`,
`to`, `from`, `headers,omitempty`. -/
structure RawMessage where
  Mail : String
  To : List String
  From : String
  Headers : List (String × String)
deriving DecidableEq

/-- Model of `strings.Split(s, sep)` for the single-character separators used
by `isValidEmail` (`"@"` and `"."`): Go splits around every occurrence and
keeps empty fragments, so the result always has one more part than there are
separators. -/
def splitOnChar (c : Char) : List Char → List (List Char)
  | [] => [[]]
  | a :: as =>
    if a = c then [] :: splitOnChar c as
    else
      match splitOnChar c as with
      | [] => [[a]]
      | p :: ps => (a :: p) :: ps

/-- Model of `strings.Contains(s, sub)`: substring (contiguous infix)
membership. -/
def containsSub (sub l : List Char) : Bool :=
  decide (sub <:+: l)

/-- `validation.isValidEmail`, translated check for check: reject the empty
string, any string containing a space, any string not splitting on `@` into
exactly two non-empty parts, and any domain without a dot, with a leading or
trailing dot, with consecutive dots, or with an empty dot-delimited part. -/
def isValidEmail (email : String) : Bool :=
  let chars := email.toList
  if chars.isEmpty then false
  else if containsSub [' '] chars then false
  else
    match splitOnChar '@' chars with
    | [localPart, domain] =>
      if localPart.isEmpty || domain.isEmpty then false
      else if !containsSub ['.'] domain then false
      else if ['.'].isPrefixOf domain || ['.'].isSuffixOf domain then false
      else if containsSub ['.', '.'] domain then false
      else (splitOnChar '.' domain).all (fun part => !part.isEmpty)
    | _ => false

/-- Model of `strings.Join(elems, sep)`. -/
def goJoin (elems : List String) (sep : String) : String :=
  match elems with
  | [] => ""
  | [x] => x
  | x :: xs => x ++ sep ++ goJoin xs sep

/-- The violation list accumulated by `validation.ValidateMessage`, in the
source's check order: required fields, content, recipient and sender address
format, then per-attachment field checks. -/
def validationErrors (msg : Message) : List String :=
  (if msg.To.length = 0 then ["recipient (To) is required"] else [])
    ++ (if msg.From = "" then ["sender (From) is required"] else [])
    ++ (if msg.Subject = "" then ["subject is required"] else [])
    ++ (if msg.Body = "" ∧ msg.HTMLBody = ""
        then ["either plain body or HTML body is required"] else [])
    ++ msg.To.filterMap (fun addr =>
        if isValidEmail addr then none
        else some ("invalid recipient email: " ++ addr))
    ++ (if isValidEmail msg.From then []
        else ["invalid sender email: " ++ msg.From])
    ++ msg.Attachments.flatMap (fun att =>
        (if att.Name = "" then ["attachment name is required"] else [])
          ++ (if att.ContentType = ""
              then ["attachment content type is required"] else [])
          ++ (if att.Data = "" then ["attachment data is required"] else []))

/-- `validation.ValidateMessage`: aggregates every violation into a single
`validation_error` with the semicolon-joined message and HTTP status 400,
or returns no error when nothing is violated. -/
def ValidateMessage (msg : Message) : Option PostalError :=
  if (validationErrors msg).length > 0 then
    some (NewPostalError "validation_error" (goJoin (validationErrors msg) "; ") 400)
  else none

/-- The violation list accumulated by `validation.ValidateRawMessage`. -/
def validationErrorsRaw (msg : RawMessage) : List String :=
  (if msg.Mail = "" then ["raw mail content is required"] else [])
    ++ (if msg.To.length = 0 then ["recipient (To) is required"] else [])
    ++ (if msg.From = "" then ["sender (From) is required"] else [])
    ++ msg.To.filterMap (fun addr =>
        if isValidEmail addr then none
        else some ("invalid recipient email: " ++ addr))
    ++ (if isValidEmail msg.From then []
        else ["invalid sender email: " ++ msg.From])

/-- `validation.ValidateRawMessage`. -/
def ValidateRawMessage (msg : RawMessage) : Option PostalError :=
  if (validationErrorsRaw msg).length > 0 then
    some (NewPostalError "validation_error"
      (goJoin (validationErrorsRaw msg) "; ") 400)
  else none

/-- Parsed URL (the fields of `net/url.URL` the library reads or writes):
scheme, host, and the rest of the address (path onward, kept verbatim). -/
structure GoURL where
  Scheme : List Char
  Host : List Char
  Rest : List Char
deriving DecidableEq

/-- Model of `net/url.Parse` restricted to the inputs `utils.ValidateURL`
feeds it, which always carry an `http://` or `https://` scheme (the caller
prepends `https://` otherwise): the host extends to the first `/`, the rest of
the address is kept as-is. -/
def parseURL (l : List Char) : Option GoURL :=
  if "http://".toList.isPrefixOf l then
    let rest := l.drop 7
    some { Scheme := "http".toList, Host := rest.takeWhile (· ≠ '/'),
           Rest := rest.dropWhile (· ≠ '/') }
  else if "https://".toList.isPrefixOf l then
    let rest := l.drop 8
    some { Scheme := "https".toList, Host := rest.takeWhile (· ≠ '/'),
           Rest := rest.dropWhile (· ≠ '/') }
  else none

/-- Serialization of a parsed URL back to a string (`url.URL.String`,
restricted to the scheme/host/rest shape above). -/
def urlString (u : GoURL) : List Char :=
  u.Scheme ++ "://".toList ++ u.Host ++ u.Rest

/-- `utils.ValidateURL`: reject the empty string, prepend `https://` when no
`http://`/`https://` scheme is present, parse, and reject a missing host. -/
def ValidateURL (rawURL : List Char) : Option GoURL :=
  if rawURL = [] then none
  else
    let withScheme :=
      if !("http://".toList.isPrefixOf rawURL)
          && !("https://".toList.isPrefixOf rawURL)
      then "https://".toList ++ rawURL
      else rawURL
    match parseURL withScheme with
    | none => none
    | some u => if u.Host = [] then none else some u

/-- `utils.StandardizeURL`: validate, then force the scheme to `http` when the
host contains `localhost` or `127.0.0.1`, and serialize. -/
def StandardizeURL (rawURL : List Char) : Option (List Char) :=
  match ValidateURL rawURL with
  | none => none
  | some u =>
    if containsSub "localhost".toList u.Host
        || containsSub "127.0.0.1".toList u.Host then
      some (urlString { u with Scheme := "http".toList })
    else
      some (urlString u)

/-- Model of `strings.TrimSuffix(s, "/")`: drop one trailing slash if present. -/
def trimTrailingSlash (l : List Char) : List Char :=
  if l.getLast? = some '/' then l.dropLast else l

/-- Model of `strings.TrimPrefix(path, "/")`: drop one leading slash if
present. -/
def trimLeadingSlash (l : List Char) : List Char :=
  match l with
  | [] => []
  | a :: as => if a = '/' then as else a :: as

/-- `utils.URLBuilder`: holds the validated base URL with its trailing slash
already stripped. -/
structure URLBuilder where
  baseURL : List Char
deriving DecidableEq

/-- `utils.NewURLBuilder`: validate the base URL, then store it with the
trailing slash stripped. -/
def NewURLBuilder (baseURL : List Char) : Option URLBuilder :=
  match ValidateURL baseURL with
  | none => none
  | some _ => some { baseURL := trimTrailingSlash baseURL }

/-- `URLBuilder.BuildPath`: `fmt.Sprintf("%s/%s", b.baseURL,
strings.TrimPrefix(path, "/"))`. -/
def URLBuilder.BuildPath (b : URLBuilder) (path : List Char) : List Char :=
  b.baseURL ++ '/' :: trimLeadingSlash path

/-- Field lookup in a decoded JSON object: `encoding/json` processes keys in
order into the same target, so a later duplicate key wins. -/
def jGet (fields : List (String × Json)) (name : String) : Option Json :=
  match fields with
  | [] => none
  | (k, v) :: rest =>
    match jGet rest name with
    | some w => some w
    | none => if k = name then some v else none

/-- Encoding of a `[]string` value: Go marshals the zero value (a nil slice,
identified here with the empty list) as `null` and anything else as an array
of strings. -/
def strListJson (l : List String) : Json :=
  if l.isEmpty then Json.null else Json.arr (l.map Json.str)

/-- Encoding of an `omitempty` string field: omitted when empty. -/
def optStrField (name : String) (v : String) : List (String × Json) :=
  if v = "" then [] else [(name, Json.str v)]

/-- Encoding of a `map[string]string` value. -/
def strMapJson (m : List (String × String)) : Json :=
  Json.obj (m.map (fun kv => (kv.1, Json.str kv.2)))

/-- `json.Marshal` for `types.Attachment`: `{name, content_type, data}`. -/
def marshalAttachment (a : Attachment) : Json :=
  Json.obj [("name", Json.str a.Name), ("content_type", Json.str a.ContentType),
    ("data", Json.str a.Data)]

/-- The field list of an encoded `types.Message`, following the struct's
field order and tags: `to`, `cc` and `bcc` carry no `omitempty` and therefore
always appear (as `null` when empty); the remaining optional fields are
omitted when empty. -/
def messageFields (m : Message) : List (String × Json) :=
  [("to", strListJson m.To), ("cc", strListJson m.CC),
    ("bcc", strListJson m.BCC), ("from", Json.str m.From)]
    ++ optStrField "sender" m.Sender
    ++ [("subject", Json.str m.Subject)]
    ++ optStrField "tag" m.Tag
    ++ optStrField "reply_to" m.ReplyTo
    ++ optStrField "plain_body" m.Body
    ++ optStrField "html_body" m.HTMLBody
    ++ (if m.Headers.isEmpty then [] else [("headers", strMapJson m.Headers)])
    ++ (if m.Attachments.isEmpty then []
        else [("attachments", Json.arr (m.Attachments.map marshalAttachment))])

/-- `json.Marshal` for `types.Message`. -/
def marshalMessage (m : Message) : Json :=
  Json.obj (messageFields m)

/-- The field list of an encoded `types.RawMessage`: `mail`, `to`, `from`
always appear; `headers` is omitted when empty. -/
def rawMessageFields (r : RawMessage) : List (String × Json) :=
  [("mail", Json.str r.Mail), ("to", strListJson r.To),
    ("from", Json.str r.From)]
    ++ (if r.Headers.isEmpty then [] else [("headers", strMapJson r.Headers)])

/-- `json.Marshal` for `types.RawMessage`. -/
def marshalRawMessage (r : RawMessage) : Json :=
  Json.obj (rawMessageFields r)

/-- The field list of an encoded `types.Result`: `message_id` and `status`
always appear; `data` and `errors` are omitted when empty. -/
def resultFields (r : Result) : List (String × Json) :=
  [("message_id", Json.str r.MessageID), ("status", Json.str r.Status)]
    ++ (if r.Data.isEmpty then [] else [("data", Json.obj r.Data)])
    ++ (if r.Errors.isEmpty then []
        else [("errors", Json.arr (r.Errors.map Json.str))])

/-- `json.Marshal` for `types.Result`. -/
def marshalResult (r : Result) : Json :=
  Json.obj (resultFields r)

/-- The field list of an encoded `types.PostalError`: `code` and `message`
always appear, `details` is omitted when empty, and `StatusCode` is never
serialized (its json tag is `-`). -/
def postalErrorFields (e : PostalError) : List (String × Json) :=
  [("code", Json.str e.Code), ("message", Json.str e.Message)]
    ++ (if e.Details.isEmpty then [] else [("details", Json.obj e.Details)])

/-- `json.Marshal` for `types.PostalError`. -/
def marshalPostalError (e : PostalError) : Json :=
  Json.obj (postalErrorFields e)

/-- The field names present in an encoded JSON object. -/
def jsonKeys : Json → List String
  | Json.obj fields => fields.map Prod.fst
  | _ => []

/-- Decoding a JSON value into a `string` target: `null` leaves the zero
value, a non-string shape is a decode error. -/
def decStr : Json → Option String
  | Json.null => some ""
  | Json.str s => some s
  | _ => none

/-- Decoding an object field into a `string` target: a missing field leaves
the zero value. -/
def decStrField (fields : List (String × Json)) (name : String) : Option String :=
  match jGet fields name with
  | none => some ""
  | some v => decStr v

/-- Decoding a list of JSON values into a `[]string` target. -/
def decStrings : List Json → Option (List String)
  | [] => some []
  | j :: js =>
    match decStr j with
    | none => none
    | some s => (decStrings js).map (fun rest => s :: rest)

/-- Decoding an object field into a `[]string` target: missing or `null`
leaves the zero value. -/
def decStrListField (fields : List (String × Json)) (name : String) :
    Option (List String) :=
  match jGet fields name with
  | none => some []
  | some Json.null => some []
  | some (Json.arr es) => decStrings es
  | some _ => none

/-- Decoding object fields into a `map[string]string` target. -/
def decStrPairs : List (String × Json) → Option (List (String × String))
  | [] => some []
  | (k, v) :: rest =>
    match decStr v with
    | none => none
    | some s => (decStrPairs rest).map (fun tail => (k, s) :: tail)

/-- Decoding an object field into a `map[string]string` target. -/
def decStrMapField (fields : List (String × Json)) (name : String) :
    Option (List (String × String)) :=
  match jGet fields name with
  | none => some []
  | some Json.null => some []
  | some (Json.obj fs) => decStrPairs fs
  | some _ => none

/-- Decoding an object field into a `map[string]interface{}` target: any
object decodes as-is. -/
def decJsonMapField (fields : List (String × Json)) (name : String) :
    Option (List (String × Json)) :=
  match jGet fields name with
  | none => some []
  | some Json.null => some []
  | some (Json.obj fs) => some fs
  | some _ => none

/-- `json.Unmarshal` for `types.Attachment`. -/
def unmarshalAttachment : Json → Option Attachment
  | Json.null => some { Name := "", ContentType := "", Data := "" }
  | Json.obj fields =>
    match decStrField fields "name" with
    | none => none
    | some name =>
      match decStrField fields "content_type" with
      | none => none
      | some ct =>
        match decStrField fields "data" with
        | none => none
        | some data => some { Name := name, ContentType := ct, Data := data }
  | _ => none

/-- Decoding a list of JSON values into a `[]Attachment` target. -/
def decAttachments : List Json → Option (List Attachment)
  | [] => some []
  | j :: js =>
    match unmarshalAttachment j with
    | none => none
    | some a => (decAttachments js).map (fun rest => a :: rest)

/-- Decoding an object field into a `[]Attachment` target. -/
def decAttachmentsField (fields : List (String × Json)) (name : String) :
    Option (List Attachment) :=
  match jGet fields name with
  | none => some []
  | some Json.null => some []
  | some (Json.arr es) => decAttachments es
  | some _ => none

/-- `json.Unmarshal` for `types.Message`. -/
def unmarshalMessage : Json → Option Message
  | Json.null => some
      { To := [], CC := [], BCC := [], From := "", Sender := "", Subject := "",
        Tag := "", ReplyTo := "", Body := "", HTMLBody := "", Headers := [],
        Attachments := [] }
  | Json.obj fields => do
    let toField ← decStrListField fields "to"
    let cc ← decStrListField fields "cc"
    let bcc ← decStrListField fields "bcc"
    let fromField ← decStrField fields "from"
    let sender ← decStrField fields "sender"
    let subject ← decStrField fields "subject"
    let tag ← decStrField fields "tag"
    let replyTo ← decStrField fields "reply_to"
    let body ← decStrField fields "plain_body"
    let htmlBody ← decStrField fields "html_body"
    let headers ← decStrMapField fields "headers"
    let attachments ← decAttachmentsField fields "attachments"
    pure { To := toField, CC := cc, BCC := bcc, From := fromField, Sender := sender,
           Subject := subject, Tag := tag, ReplyTo := replyTo, Body := body,
           HTMLBody := htmlBody, Headers := headers, Attachments := attachments }
  | _ => none

/-- `json.Unmarshal` for `types.RawMessage`. -/
def unmarshalRawMessage : Json → Option RawMessage
  | Json.null => some { Mail := "", To := [], From := "", Headers := [] }
  | Json.obj fields => do
    let mail ← decStrField fields "mail"
    let toField ← decStrListField fields "to"
    let fromField ← decStrField fields "from"
    let headers ← decStrMapField fields "headers"
    pure { Mail := mail, To := toField, From := fromField, Headers := headers }
  | _ => none

/-- `json.Unmarshal` for `types.Result`. -/
def unmarshalResult : Json → Option Result
  | Json.null => some { MessageID := "", Status := "", Data := [], Errors := [] }
  | Json.obj fields => do
    let messageID ← decStrField fields "message_id"
    let status ← decStrField fields "status"
    let data ← decJsonMapField fields "data"
    let errors ← decStrListField fields "errors"
    pure { MessageID := messageID, Status := status, Data := data,
           Errors := errors }
  | _ => none

/-- `json.Unmarshal` for `types.PostalError`: the `StatusCode` field's tag is
`-`, so decoding always leaves it at zero. -/
def unmarshalPostalError : Json → Option PostalError
  | Json.null => some { Code := "", Message := "", Details := [], StatusCode := 0 }
  | Json.obj fields => do
    let code ← decStrField fields "code"
    let message ← decStrField fields "message"
    let details ← decJsonMapField fields "details"
    pure { Code := code, Message := message, Details := details,
           StatusCode := 0 }
  | _ => none

/-- An outbound HTTP request as the transport builds it; the body carries the
already-marshaled JSON (the wire bytes are their JSON document). -/
structure HttpRequest where
  method : String
  url : List Char
  headers : List (String × String)
  body : Json

/-- An HTTP response: status code plus the JSON document read from the body. -/
structure HttpResponse where
  statusCode : Nat
  body : Json

/-- `http.RoundTripper`: executes a request, yielding a response or a
transport-level error (network failure, cancellation, deadline). -/
def RoundTripper : Type := HttpRequest → Except String HttpResponse

/-- The body of a `transport.Request` (`Body interface{}`), restricted to the
two payloads the client sends. -/
inductive ReqBody where
  | msg (m : Message) : ReqBody
  | raw (r : RawMessage) : ReqBody

/-- `json.Marshal` of a request body (it cannot fail on these types). -/
def marshalReqBody : ReqBody → Json
  | ReqBody.msg m => marshalMessage m
  | ReqBody.raw r => marshalRawMessage r

/-- `transport.Request`: method, relative path, payload, extra headers. -/
structure Request where
  Method : String
  Path : String
  Body : ReqBody
  Headers : List (String × String)

/-- `transport.Transport`: URL builder, API key, the shared base HTTP client
(modelled by its executor), and the configured middleware list. -/
structure Transport where
  urlBuilder : URLBuilder
  apiKey : String
  httpClient : RoundTripper
  middleware : List (Middleware RoundTripper)

/-- The errors `Transport.Do` can return: a decoded API error, or a message
produced by `fmt.Errorf` (execution and parse failures; Go appends the wrapped
cause after the text modelled here). -/
inductive DoError where
  | postal (e : PostalError) : DoError
  | wrapped (msg : String) : DoError

/-- Model of `http.Header.Set`: replace any previous value for the key. -/
def setHeader (hs : List (String × String)) (k v : String) :
    List (String × String) :=
  hs.filter (fun kv => kv.1 ≠ k) ++ [(k, v)]

/-- Header construction in `Transport.Do`: default `Content-Type` and
`X-Server-API-Key`, then the caller's extra headers, which may overwrite. -/
def buildHeaders (apiKey : String) (extra : List (String × String)) :
    List (String × String) :=
  extra.foldl (fun hs kv => setHeader hs kv.1 kv.2)
    (setHeader (setHeader [] "Content-Type" "application/json")
      "X-Server-API-Key" apiKey)

/-- The outbound request `Transport.Do` constructs: joined URL, marshaled
body, default-then-custom headers. -/
def Transport.buildHttpRequest (t : Transport) (req : Request) : HttpRequest :=
  { method := req.Method,
    url := t.urlBuilder.BuildPath req.Path.toList,
    headers := buildHeaders t.apiKey req.Headers,
    body := marshalReqBody req.Body }

/-- The executor `Transport.Do` runs the request through: when middleware is
configured, a fresh executor is derived by wrapping the shared client's
transport in the chain (the client itself is copied, never mutated);
otherwise the shared client is used directly. -/
def Transport.effectiveClient (t : Transport) : RoundTripper :=
  if t.middleware.length > 0 then Chain t.middleware t.httpClient
  else t.httpClient

/-- `Transport.Do`: build the request, execute it through the effective
executor, then classify the response: status ≥ 400 decodes the body as a
`PostalError` (stamping the HTTP status onto it), otherwise the body decodes
as a `Result` returned as-is; either decode failure is a parse error. -/
def Transport.Do (t : Transport) (req : Request) : Except DoError Result :=
  match t.effectiveClient (t.buildHttpRequest req) with
  | Except.error e => Except.error (DoError.wrapped ("request failed: " ++ e))
  | Except.ok resp =>
    if 400 ≤ resp.statusCode then
      match unmarshalPostalError resp.body with
      | none => Except.error (DoError.wrapped "failed to parse error response")
      | some pe =>
        Except.error (DoError.postal { pe with StatusCode := resp.statusCode })
    else
      match unmarshalResult resp.body with
      | none => Except.error (DoError.wrapped "failed to parse response")
      | some r => Except.ok r

/-- `Transport.AddMiddleware`: append one middleware to the transport's own
list. -/
def Transport.AddMiddleware (t : Transport)
    (m : Middleware RoundTripper) : Transport :=
  { t with middleware := t.middleware ++ [m] }

/-- One retryable outcome test of the example retry middleware
(`examples/advanced/main.go`): the attempt is returned immediately iff it
produced no error and a status below 500. -/
def retryReturns (o : Except String HttpResponse) : Bool :=
  match o with
  | Except.ok resp => resp.statusCode < 500
  | Except.error _ => false

/-- The error text the retry loop keeps for a failed attempt
(`fmt.Errorf("attempt %d failed: %v", attempt, err)`; a 5xx response carries
a nil error, printed as `<nil>`). -/
def attemptErrText (attempt : Nat) (o : Except String HttpResponse) : String :=
  "attempt " ++ toString attempt ++ " failed: " ++
    (match o with
     | Except.ok _ => "<nil>"
     | Except.error e => e)

/-- The retry loop of `retryMiddleware`: `for attempt := 0; attempt <=
maxRetries; attempt++`, re-invoking the inner executor (modelled as a function
of the attempt index, so it may behave differently per attempt) until an
attempt returns, and failing with the last attempt's error text once the
budget `fuel = maxRetries + 1` is exhausted.  Also counts inner invocations. -/
def retryLoop (inner : Nat → Except String HttpResponse) :
    Nat → Nat → String → (Except String HttpResponse) × Nat
  | 0, _, lastErr => (Except.error ("all retry attempts failed: " ++ lastErr), 0)
  | fuel + 1, attempt, _ =>
    if retryReturns (inner attempt) then (inner attempt, 1)
    else
      ((retryLoop inner fuel (attempt + 1)
          (attemptErrText attempt (inner attempt))).1,
        (retryLoop inner fuel (attempt + 1)
          (attemptErrText attempt (inner attempt))).2 + 1)

/-- `retryMiddleware(maxRetries, ...)` applied to an inner executor: attempts
run at indices `0 .. maxRetries`, so the budget is `maxRetries + 1`
invocations; returns the final outcome and the number of inner invocations. -/
def retryMiddlewareRun (maxRetries : Nat)
    (inner : Nat → Except String HttpResponse) :
    (Except String HttpResponse) × Nat :=
  retryLoop inner (maxRetries + 1) 0 ""

/-- Client configuration (`client.Config`); durations are modelled in
nanoseconds.  The `Transport *http.Transport` field is not modelled: no
claim concerns it. -/
structure Config where
  Timeout : Nat
  MaxRetries : Nat
  RetryInterval : Nat
  MaxConcurrency : Nat
  Debug : Bool
deriving DecidableEq

/-- `client.clientImpl`: the facade's state.  `transport` holds the
`transport.Transport` created once by `NewClient`; `middleware` is the
client's own list, which `WithMiddleware` grows. -/
structure ClientImpl where
  baseURL : String
  apiKey : String
  httpClient : RoundTripper
  config : Config
  middleware : List (Middleware RoundTripper)
  transport : Transport

/-- `clientImpl.WithMiddleware`: appends to the client's own middleware list
and returns the client; nothing is registered with the transport. -/
def ClientImpl.WithMiddleware (c : ClientImpl)
    (ms : List (Middleware RoundTripper)) : ClientImpl :=
  { c with middleware := c.middleware ++ ms }

/-- `clientImpl.SendMessage`: validate, then delegate to
`Transport.Do` with `POST send/message` and the message as body. -/
def ClientImpl.SendMessage (c : ClientImpl) (msg : Message) :
    Except DoError Result :=
  match ValidateMessage msg with
  | some e => Except.error (DoError.postal e)
  | none =>
    c.transport.Do
      { Method := "POST", Path := "send/message", Body := ReqBody.msg msg,
        Headers := [] }

/-- `clientImpl.SendRawMessage`: validate, then delegate to `Transport.Do`
with `POST send/raw` and the raw message as body. -/
def ClientImpl.SendRawMessage (c : ClientImpl) (raw : RawMessage) :
    Except DoError Result :=
  match ValidateRawMessage raw with
  | some e => Except.error (DoError.postal e)
  | none =>
    c.transport.Do
      { Method := "POST", Path := "send/raw", Body := ReqBody.raw raw,
        Headers := [] }

/-- The spec's scenario message: `to=["a@b.co"], from="s@d.com", subject="Hi",
body="hi"`. -/
def msgBasic : Message :=
  { To := ["a@b.co"], CC := [], BCC := [], From := "s@d.com", Sender := "",
    Subject := "Hi", Tag := "", ReplyTo := "", Body := "hi", HTMLBody := "",
    Headers := [], Attachments := [] }

/-- A 429 response carrying a rate-limit error body. -/
def respRateLimit : HttpResponse :=
  { statusCode := 429,
    body := Json.obj [("code", Json.str "rate_limit"),
      ("message", Json.str "rate limited")] }

/-- A 200 response whose `Result` body carries a non-"success" status. -/
def respHeld : HttpResponse :=
  { statusCode := 200,
    body := Json.obj [("message_id", Json.str "m1"),
      ("status", Json.str "held")] }

/-- A transport whose underlying client always yields the given response
(no middleware configured). -/
def transportReturning (resp : HttpResponse) : Transport :=
  { urlBuilder := { baseURL := "https://postal.example.com".toList },
    apiKey := "api-key", httpClient := fun _ => Except.ok resp,
    middleware := [] }

/-- The request `SendMessage` builds for the scenario message. -/
def reqSendBasic : Request :=
  { Method := "POST", Path := "send/message", Body := ReqBody.msg msgBasic,
    Headers := [] }

/-- A 5xx response (retry scenarios). -/
def respServer503 : HttpResponse := { statusCode := 503, body := Json.null }

/-- A 2xx response (retry scenarios). -/
def respOk200 : HttpResponse := { statusCode := 200, body := Json.null }

/-- A 4xx response (retry scenarios). -/
def respClient404 : HttpResponse := { statusCode := 404, body := Json.null }

/-- An inner executor that fails with 503 on its first two attempts and then
succeeds with 200. -/
def innerFailTwice : Nat → Except String HttpResponse :=
  fun i => if i < 2 then Except.ok respServer503 else Except.ok respOk200

/-- An inner executor that always returns 404. -/
def innerAlways404 : Nat → Except String HttpResponse :=
  fun _ => Except.ok respClient404

/-- An inner executor that always returns 503. -/
def innerAlways503 : Nat → Except String HttpResponse :=
  fun _ => Except.ok respServer503

/-! Theorems -/

/-- Claim C1: `Chain(m1, ..., mN)(next)` equals the nested application
`m1(m2(...mN(next)...))` (stated as the right fold, together with its two
defining equations), so the first listed middleware is outermost; for two
observation-recording middlewares A then B around an execution-recording
inner executor, the observation order is A-pre, B-pre, exec, B-post, A-post. -/
theorem chain_first_outermost {ρ : Type} (ms : List (Middleware ρ))
    (m : Middleware ρ) (next : ρ) :
    Chain ms next = ms.foldr (fun mw acc => mw acc) next ∧
    Chain ([] : List (Middleware ρ)) next = next ∧
    Chain (m :: ms) next = m (Chain ms next) ∧
    Chain [logHook "A", logHook "B"] logExec [] =
      ["A-pre", "B-pre", "exec", "B-post", "A-post"] := by
  have key : ∀ (l : List (Middleware ρ)) (n : ρ),
      Chain l n = l.foldr (fun mw acc => mw acc) n := by
    intro l n
    simp [Chain, List.foldl_reverse]
  refine ⟨key ms next, key [] next, ?_, ?_⟩
  · rw [key, key]
    rfl
  · decide

/-- Claim C7: for every `Result`, `Success()` is true iff the status string
equals "success", `Failed()` is its negation, and the two are mutually
exclusive and collectively exhaustive. -/
theorem result_success_failed_dichotomy (r : Result) :
    (r.Success = true ↔ r.Status = "success") ∧
    r.Failed = !r.Success ∧
    ((r.Success = true ∧ r.Failed = false) ∨
      (r.Success = false ∧ r.Failed = true)) := by
  refine ⟨by simp [Result.Success], rfl, ?_⟩
  cases h : r.Success with
  | true => exact Or.inl ⟨rfl, by simp [Result.Failed, h]⟩
  | false => exact Or.inr ⟨rfl, by simp [Result.Failed, h]⟩

/-- Claim C8: base-address normalization rejects the empty string and any
parsed address without a host; an input lacking an `http://`/`https://` scheme
gets `https://` prepended before parsing; standardization forces the scheme to
`http` exactly when the parsed host contains `localhost` or `127.0.0.1`,
leaving it unchanged otherwise. -/
theorem validate_standardize_url (raw : List Char) (u : GoURL) :
    ValidateURL ([] : List Char) = none ∧
    (∀ u', ValidateURL raw = some u' → u'.Host ≠ []) ∧
    (raw ≠ [] →
      "http://".toList.isPrefixOf raw = false →
      "https://".toList.isPrefixOf raw = false →
      ValidateURL raw =
        match parseURL ("https://".toList ++ raw) with
        | none => none
        | some u' => if u'.Host = [] then none else some u') ∧
    (ValidateURL raw = some u →
      (containsSub "localhost".toList u.Host
        || containsSub "127.0.0.1".toList u.Host) = true →
      StandardizeURL raw = some (urlString { u with Scheme := "http".toList })) ∧
    (ValidateURL raw = some u →
      (containsSub "localhost".toList u.Host
        || containsSub "127.0.0.1".toList u.Host) = false →
      StandardizeURL raw = some (urlString u)) := by
  have hmatch : ∀ (l : List Char) (u' : GoURL),
      (match parseURL l with
        | none => none
        | some w => if w.Host = [] then none else some w) = some u' →
      u'.Host ≠ [] := by
    intro l u' hm
    rcases hp : parseURL l with _ | w <;> rw [hp] at hm
    · simp at hm
    · have hm' : (if w.Host = [] then none else some w) = some u' := hm
      by_cases hw : w.Host = []
      · rw [if_pos hw] at hm'
        simp at hm'
      · rw [if_neg hw] at hm'
        simp only [Option.some.injEq] at hm'
        subst hm'
        exact hw
  refine ⟨rfl, ?_, ?_, ?_, ?_⟩
  · intro u' h
    unfold ValidateURL at h
    split at h
    · simp at h
    · exact hmatch _ u' h
  · intro hne h1 h2
    unfold ValidateURL
    rw [if_neg hne]
    have hcond : (!"http://".toList.isPrefixOf raw
        && !"https://".toList.isPrefixOf raw) = true := by
      rw [h1, h2]
      rfl
    show (match parseURL
        (if (!"http://".toList.isPrefixOf raw
            && !"https://".toList.isPrefixOf raw) = true
          then "https://".toList ++ raw else raw) with
      | none => none
      | some w => if w.Host = [] then none else some w) = _
    rw [if_pos hcond]
  · intro hv hc
    unfold StandardizeURL
    rw [hv]
    show (if (containsSub "localhost".toList u.Host
          || containsSub "127.0.0.1".toList u.Host) = true
        then some (urlString { u with Scheme := "http".toList })
        else some (urlString u)) =
      some (urlString { u with Scheme := "http".toList })
    rw [if_pos hc]
  · intro hv hc
    unfold StandardizeURL
    rw [hv]
    show (if (containsSub "localhost".toList u.Host
          || containsSub "127.0.0.1".toList u.Host) = true
        then some (urlString { u with Scheme := "http".toList })
        else some (urlString u)) =
      some (urlString u)
    rw [if_neg (by rw [hc]; exact Bool.false_ne_true)]

/-- Witness for C8 at a concrete local-development address: validation
prepends `https://`, parses host `localhost:8080`, and standardization forces
the scheme down to `http`. -/
theorem validate_standardize_url_witness :
    ValidateURL "localhost:8080".toList =
      some { Scheme := "https".toList, Host := "localhost:8080".toList,
             Rest := [] } ∧
    StandardizeURL "localhost:8080".toList =
      some (urlString { Scheme := "http".toList, Host := "localhost:8080".toList,
                        Rest := [] }) := by
  have hv : ValidateURL "localhost:8080".toList =
      some { Scheme := "https".toList, Host := "localhost:8080".toList,
             Rest := ([] : List Char) } := by decide
  refine ⟨hv, ?_⟩
  exact (validate_standardize_url "localhost:8080".toList
    { Scheme := "https".toList, Host := "localhost:8080".toList,
      Rest := [] }).2.2.2.1 hv (by decide)

/-- Claim C9: for every base address accepted by the URL builder and every
relative path, for all four combinations of an optional single trailing slash
on the base and an optional single leading slash on the path, the joined URL
is the slashless base, exactly one separating slash, then the slashless path. -/
theorem build_path_single_slash (core rest base path : List Char)
    (b : URLBuilder) (t u : Bool)
    (hcore : core.getLast? ≠ some '/') (hrest : rest.head? ≠ some '/')
    (hbase : base = core ++ (if t then ['/'] else []))
    (hpath : path = (if u then ['/'] else []) ++ rest)
    (hb : NewURLBuilder base = some b) :
    b.BuildPath path = core ++ '/' :: rest := by
  have hbb : b.baseURL = trimTrailingSlash base := by
    unfold NewURLBuilder at hb
    rcases hv : ValidateURL base with _ | w <;> rw [hv] at hb
    · exact absurd hb (by simp)
    · simp only [Option.some.injEq] at hb
      rw [← hb]
  have htrim : trimTrailingSlash base = core := by
    subst hbase
    cases t with
    | true =>
      simp [trimTrailingSlash, List.getLast?_concat, List.dropLast_concat]
    | false =>
      simp only [if_neg Bool.false_ne_true, List.append_nil, trimTrailingSlash]
      rw [if_neg hcore]
  have hlead : trimLeadingSlash path = rest := by
    subst hpath
    cases u with
    | true => simp [trimLeadingSlash]
    | false =>
      simp only [if_neg Bool.false_ne_true, List.nil_append]
      cases rest with
      | nil => rfl
      | cons a as =>
        have ha : a ≠ '/' := by
          intro h
          exact hrest (by simp [h])
        simp [trimLeadingSlash, ha]
  unfold URLBuilder.BuildPath
  rw [hbb, htrim, hlead]

/-- Witness for C9: base `https://x.co/` (trailing slash) joined with path
`/send/message` (leading slash) yields exactly one separating slash. -/
theorem build_path_single_slash_witness :
    (URLBuilder.mk "https://x.co".toList).BuildPath
        (['/'] ++ "send/message".toList) =
      "https://x.co".toList ++ '/' :: "send/message".toList :=
  build_path_single_slash "https://x.co".toList "send/message".toList
    ("https://x.co".toList ++ ['/']) (['/'] ++ "send/message".toList)
    (URLBuilder.mk "https://x.co".toList) true true
    (by decide) (by decide) (by simp) (by simp) (by decide)

/-- Claim C10: `WithMiddleware` appends only to the client's own middleware
list, leaves every other client field (including the transport and its
middleware list, which only `Transport.AddMiddleware` grows) unchanged, and
consequently `SendMessage`/`SendRawMessage` behave after any sequence of
`WithMiddleware` calls exactly as they would with none. -/
theorem with_middleware_frame (c : ClientImpl)
    (ms : List (Middleware RoundTripper))
    (msList : List (List (Middleware RoundTripper)))
    (msg : Message) (raw : RawMessage) (t : Transport)
    (m : Middleware RoundTripper) :
    (c.WithMiddleware ms).middleware = c.middleware ++ ms ∧
    (c.WithMiddleware ms).transport = c.transport ∧
    (c.WithMiddleware ms).transport.middleware = c.transport.middleware ∧
    (c.WithMiddleware ms).baseURL = c.baseURL ∧
    (c.WithMiddleware ms).apiKey = c.apiKey ∧
    (c.WithMiddleware ms).httpClient = c.httpClient ∧
    (c.WithMiddleware ms).config = c.config ∧
    (t.AddMiddleware m).middleware = t.middleware ++ [m] ∧
    (msList.foldl ClientImpl.WithMiddleware c).SendMessage msg =
      c.SendMessage msg ∧
    (msList.foldl ClientImpl.WithMiddleware c).SendRawMessage raw =
      c.SendRawMessage raw := by
  have htrans : ∀ (L : List (List (Middleware RoundTripper))) (c' : ClientImpl),
      (L.foldl ClientImpl.WithMiddleware c').transport = c'.transport := by
    intro L
    induction L with
    | nil => intro c'; rfl
    | cons hd tl ih =>
      intro c'
      simp only [List.foldl_cons]
      rw [ih]
      rfl
  refine ⟨rfl, rfl, rfl, rfl, rfl, rfl, rfl, rfl, ?_, ?_⟩
  · unfold ClientImpl.SendMessage
    rw [htrans]
  · unfold ClientImpl.SendRawMessage
    rw [htrans]

/-- Claim C2: for every executed request, a response with status ≥ 400 is
decoded as a `PostalError` with the HTTP status stamped onto its `StatusCode`
(in particular a 429 rate-limit body yields code `rate_limit` with attached
status 429), a decode failure there is the parse error `failed to parse error
response`; a response with status < 400 is decoded as a `Result` returned
unmodified (whatever its status string), a decode failure there is the parse
error `failed to parse response`. -/
theorem transport_do_classifies (t : Transport) (req : Request)
    (resp : HttpResponse) (e : PostalError) (r : Result)
    (hexec : t.effectiveClient (t.buildHttpRequest req) = Except.ok resp) :
    (400 ≤ resp.statusCode → unmarshalPostalError resp.body = some e →
      t.Do req = Except.error
        (DoError.postal { e with StatusCode := resp.statusCode })) ∧
    (400 ≤ resp.statusCode → unmarshalPostalError resp.body = none →
      t.Do req = Except.error
        (DoError.wrapped "failed to parse error response")) ∧
    (resp.statusCode < 400 → unmarshalResult resp.body = some r →
      t.Do req = Except.ok r) ∧
    (resp.statusCode < 400 → unmarshalResult resp.body = none →
      t.Do req = Except.error (DoError.wrapped "failed to parse response")) ∧
    (resp.statusCode = 429 →
      resp.body = Json.obj [("code", Json.str "rate_limit"),
        ("message", Json.str "rate limited")] →
      t.Do req = Except.error (DoError.postal
        { Code := "rate_limit", Message := "rate limited", Details := [],
          StatusCode := 429 })) := by
  have hdo : t.Do req =
      (if 400 ≤ resp.statusCode then
        match unmarshalPostalError resp.body with
        | none => Except.error (DoError.wrapped "failed to parse error response")
        | some pe =>
          Except.error (DoError.postal { pe with StatusCode := resp.statusCode })
      else
        match unmarshalResult resp.body with
        | none => Except.error (DoError.wrapped "failed to parse response")
        | some r' => Except.ok r') := by
    unfold Transport.Do
    rw [hexec]
  refine ⟨?_, ?_, ?_, ?_, ?_⟩
  · intro hge hdec
    rw [hdo, if_pos hge, hdec]
  · intro hge hdec
    rw [hdo, if_pos hge, hdec]
  · intro hlt hdec
    rw [hdo, if_neg (by omega), hdec]
  · intro hlt hdec
    rw [hdo, if_neg (by omega), hdec]
  · intro h429 hbody
    rw [hdo, if_pos (by omega), hbody, h429]
    rfl

/-- Witness for C2: a transport answering 429 with a rate-limit body yields
the decoded `rate_limit` error stamped with status 429, and a transport
answering 200 with a non-"success" result body yields that `Result`
unmodified. -/
theorem transport_do_classifies_witness :
    (transportReturning respRateLimit).Do reqSendBasic =
      Except.error (DoError.postal
        { Code := "rate_limit", Message := "rate limited", Details := [],
          StatusCode := 429 }) ∧
    (transportReturning respHeld).Do reqSendBasic =
      Except.ok ({ MessageID := "m1", Status := "held", Data := [],
                   Errors := [] } : Result) := by
  constructor
  · exact (transport_do_classifies (transportReturning respRateLimit)
      reqSendBasic respRateLimit
      { Code := "rate_limit", Message := "rate limited", Details := [],
        StatusCode := 0 }
      { MessageID := "", Status := "", Data := [], Errors := [] }
      rfl).2.2.2.2 rfl rfl
  · exact (transport_do_classifies (transportReturning respHeld)
      reqSendBasic respHeld
      { Code := "", Message := "", Details := [], StatusCode := 0 }
      { MessageID := "m1", Status := "held", Data := [], Errors := [] }
      rfl).2.2.1 (by decide) rfl

/-- Unfolding the retry loop at a returning attempt. -/
theorem retryLoop_return (inner : Nat → Except String HttpResponse)
    (fuel attempt : Nat) (lastErr : String)
    (h : retryReturns (inner attempt) = true) :
    retryLoop inner (fuel + 1) attempt lastErr = (inner attempt, 1) := by
  conv_lhs => rw [retryLoop]
  rw [if_pos h]

/-- Unfolding the retry loop at a retried attempt. -/
theorem retryLoop_retry (inner : Nat → Except String HttpResponse)
    (fuel attempt : Nat) (lastErr : String)
    (h : retryReturns (inner attempt) = false) :
    retryLoop inner (fuel + 1) attempt lastErr =
      ((retryLoop inner fuel (attempt + 1)
          (attemptErrText attempt (inner attempt))).1,
        (retryLoop inner fuel (attempt + 1)
          (attemptErrText attempt (inner attempt))).2 + 1) := by
  conv_lhs => rw [retryLoop]
  rw [if_neg (by rw [h]; exact Bool.false_ne_true)]

/-- The retry loop never makes more inner invocations than it has fuel. -/
theorem retryLoop_count_le (inner : Nat → Except String HttpResponse) :
    ∀ (fuel attempt : Nat) (lastErr : String),
      (retryLoop inner fuel attempt lastErr).2 ≤ fuel := by
  intro fuel
  induction fuel with
  | zero => intro attempt lastErr; exact Nat.le_refl 0
  | succ f ih =>
    intro attempt lastErr
    by_cases h : retryReturns (inner attempt) = true
    · rw [retryLoop_return inner f attempt lastErr h]
      exact Nat.one_le_iff_ne_zero.mpr (Nat.succ_ne_zero f)
    · rw [retryLoop_retry inner f attempt lastErr (Bool.eq_false_iff.mpr h)]
      exact Nat.succ_le_succ (ih (attempt + 1) (attemptErrText attempt (inner attempt)))

/-- Every attempt of the retry loop except the last was retryable: attempt
`attempt + i` is followed by another attempt only when it returned an error
or a server-error-range status. -/
theorem retryLoop_only_retryable (inner : Nat → Except String HttpResponse) :
    ∀ (fuel attempt : Nat) (lastErr : String) (i : Nat),
      i + 1 < (retryLoop inner fuel attempt lastErr).2 →
      retryReturns (inner (attempt + i)) = false := by
  intro fuel
  induction fuel with
  | zero => intro attempt lastErr i h; exact absurd h (by simp [retryLoop])
  | succ f ih =>
    intro attempt lastErr i h
    by_cases hr : retryReturns (inner attempt) = true
    · rw [retryLoop_return inner f attempt lastErr hr] at h
      omega
    · have hr' : retryReturns (inner attempt) = false := Bool.eq_false_iff.mpr hr
      rw [retryLoop_retry inner f attempt lastErr hr'] at h
      cases i with
      | zero => simpa using hr'
      | succ j =>
        have := ih (attempt + 1) (attemptErrText attempt (inner attempt)) j
          (by omega)
        have harith : attempt + 1 + j = attempt + (j + 1) := by omega
        rwa [harith] at this

/-- Claim C3 (amended): with `retryMiddleware(maxRetries)` the inner executor
runs at most `maxRetries + 1` times (the loop runs attempts `0 ..
maxRetries`, so the configured value bounds the retries after the first
attempt, not the total invocations); an attempt is re-executed only when it
produced an execution error or a server-error-range (≥ 500) status; an inner
executor failing twice with 5xx and then succeeding under `max = 3` yields
the success result after exactly 3 invocations; an inner executor returning a
4xx status yields that response after exactly 1 invocation. -/
theorem retry_middleware_behavior (maxRetries : Nat)
    (inner : Nat → Except String HttpResponse) (r0 r1 r2 r : HttpResponse) :
    (retryMiddlewareRun maxRetries inner).2 ≤ maxRetries + 1 ∧
    (∀ i, i + 1 < (retryMiddlewareRun maxRetries inner).2 →
      retryReturns (inner i) = false) ∧
    (inner 0 = Except.ok r0 → 500 ≤ r0.statusCode →
      inner 1 = Except.ok r1 → 500 ≤ r1.statusCode →
      inner 2 = Except.ok r2 → r2.statusCode < 500 →
      retryMiddlewareRun 3 inner = (Except.ok r2, 3)) ∧
    (inner 0 = Except.ok r → 400 ≤ r.statusCode → r.statusCode < 500 →
      retryMiddlewareRun 3 inner = (Except.ok r, 1)) := by
  refine ⟨retryLoop_count_le inner (maxRetries + 1) 0 "", ?_, ?_, ?_⟩
  · intro i h
    have := retryLoop_only_retryable inner (maxRetries + 1) 0 "" i h
    simpa using this
  · intro h0 h0s h1 h1s h2 h2s
    have hr0 : retryReturns (inner 0) = false := by
      rw [h0]
      simp only [retryReturns, decide_eq_false_iff_not]
      omega
    have hr1 : retryReturns (inner 1) = false := by
      rw [h1]
      simp only [retryReturns, decide_eq_false_iff_not]
      omega
    have hr2 : retryReturns (inner 2) = true := by
      rw [h2]
      simpa only [retryReturns, decide_eq_true_eq] using h2s
    unfold retryMiddlewareRun
    rw [show (3 : Nat) + 1 = 2 + 1 + 1 from rfl,
      retryLoop_retry inner (2 + 1) 0 "" hr0,
      retryLoop_retry inner 2 (0 + 1) _ (by simpa using hr1),
      retryLoop_return inner 1 (0 + 1 + 1) _ (by simpa using hr2)]
    simp only [show (0 : Nat) + 1 + 1 = 2 from rfl, h2]
  · intro h0 h0ge h0lt
    have hr0 : retryReturns (inner 0) = true := by
      rw [h0]
      simpa only [retryReturns, decide_eq_true_eq] using h0lt
    unfold retryMiddlewareRun
    rw [show (3 : Nat) + 1 = 2 + 1 + 1 from rfl,
      retryLoop_return inner (2 + 1) 0 "" hr0, h0]

/-- Counterexample for C3 as stated: with `retryMiddleware(3)` an inner
executor that always answers 503 is invoked 4 times, exceeding the configured
maximum of 3. -/
theorem retry_middleware_count_counterexample :
    (retryMiddlewareRun 3 innerAlways503).2 = 4 ∧
    ¬ (retryMiddlewareRun 3 innerAlways503).2 ≤ 3 := by
  constructor <;> decide

/-- Witness for C3: the fail-twice-then-succeed executor yields the 200
response after exactly 3 invocations, and the always-404 executor yields its
response after exactly 1 invocation. -/
theorem retry_middleware_behavior_witness :
    retryMiddlewareRun 3 innerFailTwice = (Except.ok respOk200, 3) ∧
    retryMiddlewareRun 3 innerAlways404 = (Except.ok respClient404, 1) := by
  constructor
  · exact (retry_middleware_behavior 3 innerFailTwice respServer503
      respServer503 respOk200 respOk200).2.2.1 rfl (by decide) rfl (by decide)
      rfl (by decide)
  · exact (retry_middleware_behavior 3 innerAlways404 respServer503
      respServer503 respOk200 respClient404).2.2.2 rfl (by decide) (by decide)

/-- String append distributes over `toList`. -/
theorem toList_append (a b : String) : (a ++ b).toList = a.toList ++ b.toList :=
  String.data_append a b

/-- Every joined element is a contiguous substring of the join. -/
theorem infix_goJoin (sep : String) :
    ∀ (l : List String) (s : String), s ∈ l →
      s.toList <:+: (goJoin l sep).toList := by
  intro l
  induction l with
  | nil => intro s h; exact absurd h (List.not_mem_nil s)
  | cons x xs ih =>
    intro s h
    cases xs with
    | nil =>
      have hs : s = x := by simpa using h
      subst hs
      exact List.infix_refl s.toList
    | cons y ys =>
      have hjoin : goJoin (x :: y :: ys) sep = x ++ sep ++ goJoin (y :: ys) sep :=
        rfl
      rw [hjoin, toList_append, toList_append]
      rcases List.mem_cons.mp h with hx | htail
      · subst hx
        exact ⟨[], sep.toList ++ (goJoin (y :: ys) sep).toList, by simp⟩
      · exact (ih s htail).trans ⟨x.toList ++ sep.toList, [], by simp⟩

/-- A guarded singleton is empty iff its guard fails. -/
theorem ite_singleton_eq_nil {c : Prop} [Decidable c] (a : String) :
    ((if c then [a] else []) = ([] : List String)) ↔ ¬c := by
  by_cases h : c <;> simp [h]

/-- A skip-on-condition filter entry vanishes iff its condition holds. -/
theorem ite_guard_eq_none {c : Prop} [Decidable c] {α : Type} (a : α) :
    ((if c then none else some a) = (none : Option α)) ↔ c := by
  by_cases h : c <;> simp [h]

/-- A guarded singleton in the else-branch vanishes iff the guard holds. -/
theorem ite_nil_singleton_eq_nil {c : Prop} [Decidable c] (a : String) :
    ((if c then [] else [a]) = ([] : List String)) ↔ c := by
  by_cases h : c <;> simp [h]

/-- Claim C4: `ValidateMessage` aggregates all violations into one
`validation_error` with HTTP status 400 whose message is the semicolon-join
of every violation found; a message with empty recipients, sender, subject
and both bodies reports all four corresponding violations simultaneously
(each violation text is a substring of the single error message); and no
error is returned iff no rule is violated. -/
theorem validate_message_aggregates (msg : Message) :
    (∀ e, ValidateMessage msg = some e →
      e.Code = "validation_error" ∧ e.StatusCode = 400 ∧
      e.Message = goJoin (validationErrors msg) "; ") ∧
    (msg.To = [] → msg.From = "" → msg.Subject = "" → msg.Body = "" →
      msg.HTMLBody = "" →
      ∃ e, ValidateMessage msg = some e ∧
        "recipient (To) is required" ∈ validationErrors msg ∧
        "sender (From) is required" ∈ validationErrors msg ∧
        "subject is required" ∈ validationErrors msg ∧
        "either plain body or HTML body is required" ∈ validationErrors msg ∧
        (∀ v ∈ validationErrors msg, v.toList <:+: e.Message.toList)) ∧
    (ValidateMessage msg = none ↔
      (msg.To ≠ [] ∧ msg.From ≠ "" ∧ msg.Subject ≠ "" ∧
        (msg.Body ≠ "" ∨ msg.HTMLBody ≠ "") ∧
        (∀ addr ∈ msg.To, isValidEmail addr = true) ∧
        isValidEmail msg.From = true ∧
        (∀ att ∈ msg.Attachments,
          att.Name ≠ "" ∧ att.ContentType ≠ "" ∧ att.Data ≠ ""))) := by
  refine ⟨?_, ?_, ?_⟩
  · intro e h
    unfold ValidateMessage at h
    split at h
    · simp only [Option.some.injEq] at h
      subst h
      exact ⟨rfl, rfl, rfl⟩
    · simp at h
  · intro hTo hFrom hSubj hBody hHtml
    have hemail : isValidEmail "" = false := by decide
    have hmem1 : "recipient (To) is required" ∈ validationErrors msg := by
      unfold validationErrors
      rw [hTo]
      simp
    have hmem2 : "sender (From) is required" ∈ validationErrors msg := by
      unfold validationErrors
      rw [hTo, hFrom]
      simp
    have hmem3 : "subject is required" ∈ validationErrors msg := by
      unfold validationErrors
      rw [hTo, hSubj]
      simp
    have hmem4 : "either plain body or HTML body is required"
        ∈ validationErrors msg := by
      unfold validationErrors
      rw [hTo, hBody, hHtml]
      simp
    have hne : validationErrors msg ≠ [] := List.ne_nil_of_mem hmem1
    refine ⟨NewPostalError "validation_error"
      (goJoin (validationErrors msg) "; ") 400, ?_, hmem1, hmem2, hmem3, hmem4,
      ?_⟩
    · unfold ValidateMessage
      rw [if_pos (List.length_pos.mpr hne)]
    · intro v hv
      exact infix_goJoin "; " (validationErrors msg) v hv
  · have hnone : (ValidateMessage msg = none) ↔ validationErrors msg = [] := by
      constructor
      · intro h
        by_contra hne
        unfold ValidateMessage at h
        rw [if_pos (List.length_pos.mpr hne)] at h
        simp at h
      · intro h
        unfold ValidateMessage
        rw [h]
        rfl
    rw [hnone]
    unfold validationErrors
    simp only [List.append_eq_nil, ite_singleton_eq_nil,
      ite_nil_singleton_eq_nil, List.filterMap_eq_nil_iff,
      List.flatMap_eq_nil_iff, ite_guard_eq_none, List.length_eq_zero]
    constructor
    · rintro ⟨⟨⟨⟨⟨⟨h1, h2⟩, h3⟩, h4⟩, h5⟩, h6⟩, h7⟩
      refine ⟨h1, h2, h3, not_and_or.mp h4, h5, h6, fun att hatt => ?_⟩
      obtain ⟨⟨ha, hb⟩, hc⟩ := h7 att hatt
      exact ⟨ha, hb, hc⟩
    · rintro ⟨h1, h2, h3, h4, h5, h6, h7⟩
      refine ⟨⟨⟨⟨⟨⟨h1, h2⟩, h3⟩, not_and_or.mpr h4⟩, h5⟩, h6⟩,
        fun att hatt => ?_⟩
      obtain ⟨ha, hb, hc⟩ := h7 att hatt
      exact ⟨⟨ha, hb⟩, hc⟩

/-- Witness for C4: the all-empty message yields a single aggregated
validation error containing all four required-field violation texts. -/
theorem validate_message_aggregates_witness :
    (∃ e, ValidateMessage
        { To := [], CC := [], BCC := [], From := "", Sender := "",
          Subject := "", Tag := "", ReplyTo := "", Body := "", HTMLBody := "",
          Headers := [], Attachments := [] } = some e ∧
      "recipient (To) is required" ∈ validationErrors
        { To := [], CC := [], BCC := [], From := "", Sender := "",
          Subject := "", Tag := "", ReplyTo := "", Body := "", HTMLBody := "",
          Headers := [], Attachments := [] } ∧
      "sender (From) is required" ∈ validationErrors
        { To := [], CC := [], BCC := [], From := "", Sender := "",
          Subject := "", Tag := "", ReplyTo := "", Body := "", HTMLBody := "",
          Headers := [], Attachments := [] } ∧
      "subject is required" ∈ validationErrors
        { To := [], CC := [], BCC := [], From := "", Sender := "",
          Subject := "", Tag := "", ReplyTo := "", Body := "", HTMLBody := "",
          Headers := [], Attachments := [] } ∧
      "either plain body or HTML body is required" ∈ validationErrors
        { To := [], CC := [], BCC := [], From := "", Sender := "",
          Subject := "", Tag := "", ReplyTo := "", Body := "", HTMLBody := "",
          Headers := [], Attachments := [] } ∧
      (∀ v ∈ validationErrors
        { To := [], CC := [], BCC := [], From := "", Sender := "",
          Subject := "", Tag := "", ReplyTo := "", Body := "", HTMLBody := "",
          Headers := [], Attachments := [] },
        v.toList <:+: e.Message.toList)) ∧
    ValidateMessage msgBasic = none :=
  ⟨(validate_message_aggregates _).2.1 rfl rfl rfl rfl rfl,
    (validate_message_aggregates msgBasic).2.2.mpr (by decide)⟩

/-- Splitting at a leading separator yields a leading empty part. -/
theorem splitOnChar_cons_sep (c : Char) (as : List Char) :
    splitOnChar c (c :: as) = [] :: splitOnChar c as := by
  simp [splitOnChar]

/-- Splitting past a non-separator prepends it to the first part. -/
theorem splitOnChar_cons_ne (c a : Char) (as p : List Char)
    (ps : List (List Char)) (h : a ≠ c) (heq : splitOnChar c as = p :: ps) :
    splitOnChar c (a :: as) = (a :: p) :: ps := by
  simp only [splitOnChar, if_neg h, heq]

/-- Splitting never yields an empty list of parts. -/
theorem splitOnChar_ne_nil (c : Char) (l : List Char) :
    splitOnChar c l ≠ [] := by
  induction l with
  | nil => simp [splitOnChar]
  | cons a as ih =>
    by_cases h : a = c
    · subst h
      rw [splitOnChar_cons_sep]
      simp
    · rcases heq : splitOnChar c as with _ | ⟨p, ps⟩
      · exact absurd heq ih
      · rw [splitOnChar_cons_ne c a as p ps h heq]
        simp

/-- No part of a split contains the separator. -/
theorem splitOnChar_not_mem (c : Char) (l : List Char) :
    ∀ p ∈ splitOnChar c l, c ∉ p := by
  induction l with
  | nil =>
    intro p hp
    simp [splitOnChar] at hp
    subst hp
    simp
  | cons a as ih =>
    intro p hp
    by_cases h : a = c
    · subst h
      rw [splitOnChar_cons_sep] at hp
      rcases List.mem_cons.mp hp with h1 | h2
      · subst h1; simp
      · exact ih p h2
    · rcases heq : splitOnChar c as with _ | ⟨q, qs⟩
      · exact absurd heq (splitOnChar_ne_nil c as)
      · rw [splitOnChar_cons_ne c a as q qs h heq] at hp
        rcases List.mem_cons.mp hp with h1 | h2
        · subst h1
          intro hc
          rcases List.mem_cons.mp hc with h3 | h4
          · exact h h3.symm
          · exact ih q (by rw [heq]; exact List.mem_cons_self q qs) h4
        · exact ih p (by rw [heq]; exact List.mem_cons_of_mem q h2)

/-- A separator-free list splits into itself. -/
theorem splitOnChar_eq_self (c : Char) (l : List Char) (h : c ∉ l) :
    splitOnChar c l = [l] := by
  induction l with
  | nil => rfl
  | cons a as ih =>
    have ha : a ≠ c := fun he => h (he ▸ List.mem_cons_self a as)
    have has : c ∉ as := fun hm => h (List.mem_cons_of_mem a hm)
    exact splitOnChar_cons_ne c a as as [] ha (ih has)

/-- Splitting at the unique separator occurrence yields the two surrounding
parts. -/
theorem splitOnChar_append (c : Char) (l d : List Char) (hl : c ∉ l)
    (hd : c ∉ d) : splitOnChar c (l ++ c :: d) = [l, d] := by
  induction l with
  | nil =>
    rw [List.nil_append, splitOnChar_cons_sep, splitOnChar_eq_self c d hd]
  | cons a as ih =>
    have ha : a ≠ c := fun he => hl (he ▸ List.mem_cons_self a as)
    have has : c ∉ as := fun hm => hl (List.mem_cons_of_mem a hm)
    rw [List.cons_append]
    exact splitOnChar_cons_ne c a (as ++ c :: d) as [d] ha (ih has)

/-- Two or more parts force a separator occurrence. -/
theorem mem_of_splitOnChar_length (c : Char) (l : List Char)
    (h : 2 ≤ (splitOnChar c l).length) : c ∈ l := by
  induction l with
  | nil => simp [splitOnChar] at h
  | cons a as ih =>
    by_cases hac : a = c
    · subst hac
      exact List.mem_cons_self a as
    · rcases heq : splitOnChar c as with _ | ⟨p, ps⟩
      · exact absurd heq (splitOnChar_ne_nil c as)
      · rw [splitOnChar_cons_ne c a as p ps hac heq] at h
        refine List.mem_cons_of_mem a (ih ?_)
        rw [heq]
        simp only [List.length_cons] at h ⊢
        omega

/-- A separator occurrence forces two or more parts. -/
theorem splitOnChar_length_of_mem (c : Char) (l : List Char) (h : c ∈ l) :
    2 ≤ (splitOnChar c l).length := by
  induction l with
  | nil => simp at h
  | cons a as ih =>
    by_cases hac : a = c
    · rw [hac, splitOnChar_cons_sep]
      rcases heq : splitOnChar c as with _ | ⟨p, ps⟩
      · exact absurd heq (splitOnChar_ne_nil c as)
      · simp [heq]
    · have hmem : c ∈ as := by
        rcases List.mem_cons.mp h with h1 | h2
        · exact absurd h1.symm hac
        · exact h2
      rcases heq : splitOnChar c as with _ | ⟨p, ps⟩
      · exact absurd heq (splitOnChar_ne_nil c as)
      · rw [splitOnChar_cons_ne c a as p ps hac heq]
        have := ih hmem
        rw [heq] at this
        simp only [List.length_cons] at this ⊢
        omega

/-- A leading separator yields a leading empty part. -/
theorem splitOnChar_head_sep (c : Char) (l : List Char)
    (h : l.head? = some c) : (splitOnChar c l).head? = some [] := by
  cases l with
  | nil => simp at h
  | cons a as =>
    have ha : a = c := by simpa using h
    subst ha
    rw [splitOnChar_cons_sep]
    rfl

/-- An element equal to `getLast?` is a member. -/
theorem mem_of_getLast?_eq {α : Type} (l : List α) (a : α)
    (h : l.getLast? = some a) : a ∈ l := by
  have : l.reverse.head? = some a := by rw [List.head?_reverse]; exact h
  exact (List.mem_reverse).mp (List.mem_of_mem_head? (by rw [this]; rfl))

/-- A trailing separator yields a trailing empty part. -/
theorem splitOnChar_getLast_sep (c : Char) :
    ∀ (l : List Char), l.getLast? = some c →
      (splitOnChar c l).getLast? = some [] := by
  intro l
  induction l with
  | nil => intro h; simp at h
  | cons a as ih =>
    intro h
    cases as with
    | nil =>
      have ha : a = c := by simpa using h
      subst ha
      rw [splitOnChar_cons_sep]
      rfl
    | cons b bs =>
      have hlast : (b :: bs).getLast? = some c := by
        rw [← List.getLast?_cons_cons (a := a)]
        exact h
      have hih := ih hlast
      by_cases hac : a = c
      · subst hac
        rw [splitOnChar_cons_sep]
        rcases heq : splitOnChar a (b :: bs) with _ | ⟨p, ps⟩
        · exact absurd heq (splitOnChar_ne_nil a (b :: bs))
        · rw [heq] at hih
          rw [List.getLast?_cons_cons]
          exact hih
      · rcases heq : splitOnChar c (b :: bs) with _ | ⟨p, ps⟩
        · exact absurd heq (splitOnChar_ne_nil c (b :: bs))
        · rw [splitOnChar_cons_ne c a (b :: bs) p ps hac heq]
          rw [heq] at hih
          cases ps with
          | nil =>
            exfalso
            have hcm : c ∈ b :: bs := mem_of_getLast?_eq (b :: bs) c hlast
            have := splitOnChar_length_of_mem c (b :: bs) hcm
            rw [heq] at this
            simp at this
          | cons q qs =>
            rw [List.getLast?_cons_cons]
            rw [List.getLast?_cons_cons] at hih
            exact hih

/-- Consecutive separators leave an empty part strictly after the first
part. -/
theorem splitOnChar_double_sep (c : Char) :
    ∀ (l : List Char), [c, c] <:+: l →
      [] ∈ (splitOnChar c l).tail := by
  intro l
  induction l with
  | nil =>
    intro h
    have := List.eq_nil_of_infix_nil h
    simp at this
  | cons a as ih =>
    intro h
    rcases List.infix_cons_iff.mp h with hpre | hinf
    · obtain ⟨t, ht⟩ := hpre
      have ha : a = c := by
        have := congrArg (fun x => x.head?) ht
        simpa using this.symm
      subst ha
      have has : as = a :: t := by
        have := congrArg (fun x => x.tail) ht
        simpa using this.symm
      rw [splitOnChar_cons_sep]
      rw [has, splitOnChar_cons_sep]
      simp
    · have htail := ih hinf
      by_cases hac : a = c
      · subst hac
        rw [splitOnChar_cons_sep]
        exact List.mem_of_mem_tail htail
      · rcases heq : splitOnChar c as with _ | ⟨p, ps⟩
        · exact absurd heq (splitOnChar_ne_nil c as)
        · rw [splitOnChar_cons_ne c a as p ps hac heq]
          rw [heq] at htail
          exact htail

/-- A one-element list is a prefix iff it is the head. -/
theorem singleton_isPrefixOf_iff (a : Char) (l : List Char) :
    [a].isPrefixOf l = true ↔ l.head? = some a := by
  cases l with
  | nil => simp [List.isPrefixOf]
  | cons b bs =>
    simp [List.isPrefixOf]
    exact eq_comm

/-- A one-element list is a suffix iff it is the last element. -/
theorem singleton_isSuffixOf_iff (a : Char) (l : List Char) :
    [a].isSuffixOf l = true ↔ l.getLast? = some a := by
  show [a].reverse.isPrefixOf l.reverse = true ↔ _
  rw [show ([a].reverse : List Char) = [a] from rfl,
    singleton_isPrefixOf_iff, List.head?_reverse]

/-- A one-element list is an infix iff the element occurs. -/
theorem singleton_infix_iff (a : Char) (l : List Char) :
    [a] <:+: l ↔ a ∈ l := by
  constructor
  · intro h
    exact h.mem (by simp)
  · intro h
    obtain ⟨s, t, rfl⟩ := List.append_of_mem h
    exact ⟨s, t, by simp⟩

/-- `containsSub` decides infix containment. -/
theorem containsSub_iff (sub l : List Char) :
    containsSub sub l = true ↔ sub <:+: l := by
  simp [containsSub]

/-- `containsSub` is false exactly on non-infixes. -/
theorem containsSub_eq_false_iff (sub l : List Char) :
    containsSub sub l = false ↔ ¬ sub <:+: l := by
  simp [containsSub]

/-- Claim C5: the address-format validator rejects the empty string, strings
containing a space, strings not splitting on `@` into exactly two non-empty
parts, and domains lacking a dot, starting or ending with a dot, containing
consecutive dots, or containing an empty dot-delimited segment; and it
accepts every string `local@domain` with non-empty local part, no space,
exactly one `@`, and a domain made of two or more non-empty dot-separated
segments. -/
theorem is_valid_email_characterization (s : String) (l d : List Char) :
    (s = "" → isValidEmail s = false) ∧
    (' ' ∈ s.toList → isValidEmail s = false) ∧
    ((splitOnChar '@' s.toList).length ≠ 2 → isValidEmail s = false) ∧
    (splitOnChar '@' s.toList = [l, d] → l = [] ∨ d = [] →
      isValidEmail s = false) ∧
    (splitOnChar '@' s.toList = [l, d] → '.' ∉ d → isValidEmail s = false) ∧
    (splitOnChar '@' s.toList = [l, d] →
      d.head? = some '.' ∨ d.getLast? = some '.' → isValidEmail s = false) ∧
    (splitOnChar '@' s.toList = [l, d] → ['.', '.'] <:+: d →
      isValidEmail s = false) ∧
    (splitOnChar '@' s.toList = [l, d] → [] ∈ splitOnChar '.' d →
      isValidEmail s = false) ∧
    (s.toList = l ++ '@' :: d → '@' ∉ l → '@' ∉ d → l ≠ [] →
      ' ' ∉ s.toList → 2 ≤ (splitOnChar '.' d).length →
      (∀ p ∈ splitOnChar '.' d, p ≠ []) → isValidEmail s = true) := by
  have hstep : ∀ (kill : Prop), s.toList.isEmpty = true → isValidEmail s = false := by
    intro _ he
    unfold isValidEmail
    simp only []
    rw [if_pos he]
  refine ⟨?_, ?_, ?_, ?_, ?_, ?_, ?_, ?_, ?_⟩
  · intro h
    subst h
    decide
  · intro h
    have hk : containsSub [' '] s.toList = true :=
      (containsSub_iff [' '] s.toList).mpr ((singleton_infix_iff ' ' _).mpr h)
    by_cases he : s.toList.isEmpty = true
    · exact hstep True he
    · unfold isValidEmail
      simp only []
      rw [if_neg he, if_pos hk]
  · intro h
    by_cases he : s.toList.isEmpty = true
    · exact hstep True he
    · by_cases hsp : containsSub [' '] s.toList = true
      · unfold isValidEmail
        simp only []
        rw [if_neg he, if_pos hsp]
      · unfold isValidEmail
        simp only []
        rw [if_neg he, if_neg hsp]
        rcases heq : splitOnChar '@' s.toList with _ | ⟨p, rest⟩
        · exact absurd heq (splitOnChar_ne_nil '@' s.toList)
        · rcases rest with _ | ⟨q, rest2⟩
          · rfl
          · rcases rest2 with _ | ⟨r, rest3⟩
            · exact absurd (by rw [heq]; rfl) h
            · rfl
  case refine_4 =>
    intro hsplit hor
    have hk : (l.isEmpty || d.isEmpty) = true := by
      rcases hor with h1 | h2
      · subst h1; simp
      · subst h2; simp
    by_cases he : s.toList.isEmpty = true
    · exact hstep True he
    · by_cases hsp : containsSub [' '] s.toList = true
      · unfold isValidEmail
        simp only []
        rw [if_neg he, if_pos hsp]
      · unfold isValidEmail
        simp only []
        rw [if_neg he, if_neg hsp, hsplit]
        simp [hk]
  case refine_5 =>
    intro hsplit hnd
    have hk : containsSub ['.'] d = false :=
      (containsSub_eq_false_iff ['.'] d).mpr
        (fun hinf => hnd ((singleton_infix_iff '.' d).mp hinf))
    by_cases he : s.toList.isEmpty = true
    · exact hstep True he
    · by_cases hsp : containsSub [' '] s.toList = true
      · unfold isValidEmail
        simp only []
        rw [if_neg he, if_pos hsp]
      · unfold isValidEmail
        simp only []
        rw [if_neg he, if_neg hsp, hsplit]
        simp [hk]
  case refine_6 =>
    intro hsplit hor
    have hk : (['.'].isPrefixOf d || ['.'].isSuffixOf d) = true := by
      rcases hor with h1 | h2
      · rw [(singleton_isPrefixOf_iff '.' d).mpr h1]
        simp
      · rw [(singleton_isSuffixOf_iff '.' d).mpr h2]
        simp
    by_cases he : s.toList.isEmpty = true
    · exact hstep True he
    · by_cases hsp : containsSub [' '] s.toList = true
      · unfold isValidEmail
        simp only []
        rw [if_neg he, if_pos hsp]
      · unfold isValidEmail
        simp only []
        rw [if_neg he, if_neg hsp, hsplit]
        simp [hk]
  case refine_7 =>
    intro hsplit hinf
    have hk : containsSub ['.', '.'] d = true :=
      (containsSub_iff ['.', '.'] d).mpr hinf
    by_cases he : s.toList.isEmpty = true
    · exact hstep True he
    · by_cases hsp : containsSub [' '] s.toList = true
      · unfold isValidEmail
        simp only []
        rw [if_neg he, if_pos hsp]
      · unfold isValidEmail
        simp only []
        rw [if_neg he, if_neg hsp, hsplit]
        simp [hk]
  case refine_8 =>
    intro hsplit hmem
    have hk : (splitOnChar '.' d).all (fun part => !part.isEmpty) = false :=
      List.all_eq_false.mpr ⟨[], hmem, by simp⟩
    by_cases he : s.toList.isEmpty = true
    · exact hstep True he
    · by_cases hsp : containsSub [' '] s.toList = true
      · unfold isValidEmail
        simp only []
        rw [if_neg he, if_pos hsp]
      · unfold isValidEmail
        simp only []
        rw [if_neg he, if_neg hsp, hsplit]
        simp [hk]
  case refine_9 =>
    intro hs hl hd hlne hspace hlen hall
    have hsplit : splitOnChar '@' s.toList = [l, d] := by
      rw [hs]
      exact splitOnChar_append '@' l d hl hd
    have hdne : d ≠ [] := by
      intro hdn
      rw [hdn] at hlen
      simp [splitOnChar] at hlen
    have k1 : s.toList.isEmpty = false := by
      rw [hs]
      simp
    have k2 : containsSub [' '] s.toList = false :=
      (containsSub_eq_false_iff [' '] s.toList).mpr
        (fun hinf => hspace ((singleton_infix_iff ' ' _).mp hinf))
    have k3a : l.isEmpty = false := List.isEmpty_eq_false.mpr hlne
    have k3b : d.isEmpty = false := List.isEmpty_eq_false.mpr hdne
    have k4 : containsSub ['.'] d = true :=
      (containsSub_iff ['.'] d).mpr
        ((singleton_infix_iff '.' d).mpr (mem_of_splitOnChar_length '.' d hlen))
    have khead : d.head? ≠ some '.' := by
      intro hh
      have h1 := splitOnChar_head_sep '.' d hh
      exact hall [] (List.mem_of_mem_head? (by rw [h1]; rfl)) rfl
    have klast : d.getLast? ≠ some '.' := by
      intro hh
      have h1 := splitOnChar_getLast_sep '.' d hh
      exact hall [] (mem_of_getLast?_eq (splitOnChar '.' d) [] h1) rfl
    have k5 : ['.'].isPrefixOf d = false :=
      Bool.eq_false_iff.mpr
        (fun ht => khead ((singleton_isPrefixOf_iff '.' d).mp ht))
    have k6 : ['.'].isSuffixOf d = false :=
      Bool.eq_false_iff.mpr
        (fun ht => klast ((singleton_isSuffixOf_iff '.' d).mp ht))
    have k7 : containsSub ['.', '.'] d = false :=
      (containsSub_eq_false_iff ['.', '.'] d).mpr
        (fun hinf =>
          hall [] (List.mem_of_mem_tail (splitOnChar_double_sep '.' d hinf)) rfl)
    have k8 : (splitOnChar '.' d).all (fun part => !part.isEmpty) = true :=
      List.all_eq_true.mpr (fun p hp => by
        simpa [List.isEmpty_eq_false] using hall p hp)
    unfold isValidEmail
    simp only []
    rw [if_neg (by rw [k1]; exact Bool.false_ne_true),
      if_neg (by rw [k2]; exact Bool.false_ne_true), hsplit]
    simp [k3a, k3b, k4, k5, k6, k7, k8]

/-- Witness for C5: a well-formed address is accepted; an address containing
a space is rejected. -/
theorem is_valid_email_characterization_witness :
    isValidEmail "a@b.co" = true ∧ isValidEmail "a b@c.d" = false :=
  ⟨(is_valid_email_characterization "a@b.co" ['a'] "b.co".toList).2.2.2.2.2.2.2.2
      (by decide) (by decide) (by decide) (by decide) (by decide) (by decide)
      (by decide),
    (is_valid_email_characterization "a b@c.d" [] []).2.1 (by decide)⟩

/-- Field lookup on a cons in `Option.or` form. -/
theorem jGet_cons (k : String) (v : Json) (rest : List (String × Json))
    (n : String) :
    jGet ((k, v) :: rest) n = (jGet rest n).or (if k = n then some v else none) := by
  rcases h : jGet rest n with _ | w <;> simp [jGet, h, Option.or]

/-- Field lookup distributes over append, with the later fields winning. -/
theorem jGet_append (a b : List (String × Json)) (n : String) :
    jGet (a ++ b) n = (jGet b n).or (jGet a n) := by
  induction a with
  | nil => rcases h : jGet b n with _ | w <;> simp [jGet, h, Option.or]
  | cons kv as ih =>
    obtain ⟨k, v⟩ := kv
    rw [List.cons_append, jGet_cons, jGet_cons, ih]
    cases jGet b n <;> cases jGet as n <;> simp [Option.or]

/-- An omitted-when-empty string field is invisible to other lookups. -/
theorem jGet_optStrField_ne (k v n : String) (h : ¬ k = n) :
    jGet (optStrField k v) n = none := by
  unfold optStrField
  by_cases hv : v = "" <;> simp [hv, jGet, h]

/-- Looking up an omitted-when-empty string field. -/
theorem jGet_optStrField_self (k v : String) :
    jGet (optStrField k v) k = if v = "" then none else some (Json.str v) := by
  unfold optStrField
  by_cases hv : v = "" <;> simp [hv, jGet]

/-- An omitted-when-empty field is invisible to other lookups. -/
theorem jGet_ite_single_ne (c : Prop) [Decidable c] (k : String) (x : Json)
    (n : String) (h : ¬ k = n) :
    jGet (if c then [] else [(k, x)]) n = none := by
  by_cases hc : c <;> simp [hc, jGet, h]

/-- Looking up an omitted-when-empty field. -/
theorem jGet_ite_single_self (c : Prop) [Decidable c] (k : String) (x : Json) :
    jGet (if c then [] else [(k, x)]) k = if c then none else some x := by
  by_cases hc : c <;> simp [hc, jGet]

/-- Decoding an encoded string list element-wise. -/
theorem decStrings_map (l : List String) :
    decStrings (l.map Json.str) = some l := by
  induction l with
  | nil => rfl
  | cons x xs ih => simp [decStrings, decStr, ih]

/-- Decoding an encoded string map element-wise. -/
theorem decStrPairs_map (hs : List (String × String)) :
    decStrPairs (hs.map (fun kv => (kv.1, Json.str kv.2))) = some hs := by
  induction hs with
  | nil => rfl
  | cons kv rest ih => simp [decStrPairs, decStr, ih]

/-- Attachment encode/decode round trip. -/
theorem unmarshal_marshal_attachment (a : Attachment) :
    unmarshalAttachment (marshalAttachment a) = some a := rfl

/-- Decoding an encoded attachment list element-wise. -/
theorem decAttachments_map (l : List Attachment) :
    decAttachments (l.map marshalAttachment) = some l := by
  induction l with
  | nil => rfl
  | cons a rest ih => simp [decAttachments, unmarshal_marshal_attachment, ih]

/-- Decoding a `[]string` field whose encoding is `null`-when-empty. -/
theorem decStrListField_round (L : List (String × Json)) (n : String)
    (l : List String) (h : jGet L n = some (strListJson l)) :
    decStrListField L n = some l := by
  by_cases he : l.isEmpty
  · have h' : jGet L n = some Json.null := by
      rw [h]
      unfold strListJson
      rw [if_pos he]
    unfold decStrListField
    rw [h', List.isEmpty_iff.mp he]
  · have h' : jGet L n = some (Json.arr (l.map Json.str)) := by
      rw [h]
      unfold strListJson
      rw [if_neg he]
    unfold decStrListField
    rw [h']
    exact decStrings_map l

/-- Decoding a mandatory string field. -/
theorem decStrField_str (L : List (String × Json)) (n v : String)
    (h : jGet L n = some (Json.str v)) : decStrField L n = some v := by
  unfold decStrField
  rw [h]
  rfl

/-- Decoding an omitted-when-empty string field. -/
theorem decStrField_opt (L : List (String × Json)) (n v : String)
    (h : jGet L n = if v = "" then none else some (Json.str v)) :
    decStrField L n = some v := by
  by_cases hv : v = ""
  · have h' : jGet L n = none := by rw [h, if_pos hv]
    unfold decStrField
    rw [h', hv]
  · have h' : jGet L n = some (Json.str v) := by rw [h, if_neg hv]
    unfold decStrField
    rw [h']
    rfl

/-- Decoding an omitted-when-empty string map field. -/
theorem decStrMapField_opt (L : List (String × Json)) (n : String)
    (hs : List (String × String))
    (h : jGet L n = if hs.isEmpty then none else some (strMapJson hs)) :
    decStrMapField L n = some hs := by
  by_cases he : hs.isEmpty
  · have h' : jGet L n = none := by rw [h, if_pos he]
    unfold decStrMapField
    rw [h', List.isEmpty_iff.mp he]
  · have h' : jGet L n =
        some (Json.obj (hs.map (fun kv => (kv.1, Json.str kv.2)))) := by
      rw [h, if_neg he]
      rfl
    unfold decStrMapField
    rw [h']
    exact decStrPairs_map hs

/-- Decoding an omitted-when-empty free-form object field. -/
theorem decJsonMapField_opt (L : List (String × Json)) (n : String)
    (fs : List (String × Json))
    (h : jGet L n = if fs.isEmpty then none else some (Json.obj fs)) :
    decJsonMapField L n = some fs := by
  by_cases he : fs.isEmpty
  · have h' : jGet L n = none := by rw [h, if_pos he]
    unfold decJsonMapField
    rw [h', List.isEmpty_iff.mp he]
  · have h' : jGet L n = some (Json.obj fs) := by rw [h, if_neg he]
    unfold decJsonMapField
    rw [h']

/-- Decoding an omitted-when-empty attachment list field. -/
theorem decAttachmentsField_opt (L : List (String × Json)) (n : String)
    (atts : List Attachment)
    (h : jGet L n = if atts.isEmpty then none
        else some (Json.arr (atts.map marshalAttachment))) :
    decAttachmentsField L n = some atts := by
  by_cases he : atts.isEmpty
  · have h' : jGet L n = none := by rw [h, if_pos he]
    unfold decAttachmentsField
    rw [h', List.isEmpty_iff.mp he]
  · have h' : jGet L n = some (Json.arr (atts.map marshalAttachment)) := by
      rw [h, if_neg he]
    unfold decAttachmentsField
    rw [h']
    exact decAttachments_map atts

/-- Decoding an omitted-when-empty string list field. -/
theorem decStrListField_opt (L : List (String × Json)) (n : String)
    (l : List String)
    (h : jGet L n = if l.isEmpty then none
        else some (Json.arr (l.map Json.str))) :
    decStrListField L n = some l := by
  by_cases he : l.isEmpty
  · have h' : jGet L n = none := by rw [h, if_pos he]
    unfold decStrListField
    rw [h', List.isEmpty_iff.mp he]
  · have h' : jGet L n = some (Json.arr (l.map Json.str)) := by
      rw [h, if_neg he]
    unfold decStrListField
    rw [h']
    exact decStrings_map l

/-- The identity match on an option collapses. -/
theorem match_some_id (o : Option Json) :
    (match o with | some w => some w | none => none) = o := by
  cases o <;> rfl

/-- Looking up each field of an encoded `Message`. -/
theorem jGet_messageFields (m : Message) :
    jGet (messageFields m) "to" = some (strListJson m.To) ∧
    jGet (messageFields m) "cc" = some (strListJson m.CC) ∧
    jGet (messageFields m) "bcc" = some (strListJson m.BCC) ∧
    jGet (messageFields m) "from" = some (Json.str m.From) ∧
    jGet (messageFields m) "sender" =
      (if m.Sender = "" then none else some (Json.str m.Sender)) ∧
    jGet (messageFields m) "subject" = some (Json.str m.Subject) ∧
    jGet (messageFields m) "tag" =
      (if m.Tag = "" then none else some (Json.str m.Tag)) ∧
    jGet (messageFields m) "reply_to" =
      (if m.ReplyTo = "" then none else some (Json.str m.ReplyTo)) ∧
    jGet (messageFields m) "plain_body" =
      (if m.Body = "" then none else some (Json.str m.Body)) ∧
    jGet (messageFields m) "html_body" =
      (if m.HTMLBody = "" then none else some (Json.str m.HTMLBody)) ∧
    jGet (messageFields m) "headers" =
      (if m.Headers.isEmpty then none else some (strMapJson m.Headers)) ∧
    jGet (messageFields m) "attachments" =
      (if m.Attachments.isEmpty then none
        else some (Json.arr (m.Attachments.map marshalAttachment))) := by
  unfold messageFields
  refine ⟨?_, ?_, ?_, ?_, ?_, ?_, ?_, ?_, ?_, ?_, ?_, ?_⟩ <;>
    simp [jGet_append, jGet_optStrField_ne, jGet_optStrField_self,
      jGet_ite_single_ne, jGet_ite_single_self, jGet, Option.or_none,
      Option.none_or, match_some_id]

/-- Message encode/decode round trip. -/
theorem unmarshal_marshal_message (m : Message) :
    unmarshalMessage (marshalMessage m) = some m := by
  obtain ⟨hto, hcc, hbcc, hfrom, hsender, hsubject, htag, hreply, hbody,
    hhtml, hheaders, hatts⟩ := jGet_messageFields m
  show unmarshalMessage (Json.obj (messageFields m)) = some m
  simp only [unmarshalMessage]
  rw [decStrListField_round _ _ _ hto, decStrListField_round _ _ _ hcc,
    decStrListField_round _ _ _ hbcc, decStrField_str _ _ _ hfrom,
    decStrField_opt _ _ _ hsender, decStrField_str _ _ _ hsubject,
    decStrField_opt _ _ _ htag, decStrField_opt _ _ _ hreply,
    decStrField_opt _ _ _ hbody, decStrField_opt _ _ _ hhtml,
    decStrMapField_opt _ _ _ hheaders, decAttachmentsField_opt _ _ _ hatts]
  rfl

/-- Looking up each field of an encoded `RawMessage`. -/
theorem jGet_rawMessageFields (r : RawMessage) :
    jGet (rawMessageFields r) "mail" = some (Json.str r.Mail) ∧
    jGet (rawMessageFields r) "to" = some (strListJson r.To) ∧
    jGet (rawMessageFields r) "from" = some (Json.str r.From) ∧
    jGet (rawMessageFields r) "headers" =
      (if r.Headers.isEmpty then none else some (strMapJson r.Headers)) := by
  unfold rawMessageFields
  refine ⟨?_, ?_, ?_, ?_⟩ <;>
    simp [jGet_append, jGet_ite_single_ne, jGet_ite_single_self, jGet,
      Option.or_none, Option.none_or, match_some_id]

/-- RawMessage encode/decode round trip. -/
theorem unmarshal_marshal_raw_message (r : RawMessage) :
    unmarshalRawMessage (marshalRawMessage r) = some r := by
  obtain ⟨hmail, hto, hfrom, hheaders⟩ := jGet_rawMessageFields r
  show unmarshalRawMessage (Json.obj (rawMessageFields r)) = some r
  simp only [unmarshalRawMessage]
  rw [decStrField_str _ _ _ hmail, decStrListField_round _ _ _ hto,
    decStrField_str _ _ _ hfrom, decStrMapField_opt _ _ _ hheaders]
  rfl

/-- Looking up each field of an encoded `Result`. -/
theorem jGet_resultFields (r : Result) :
    jGet (resultFields r) "message_id" = some (Json.str r.MessageID) ∧
    jGet (resultFields r) "status" = some (Json.str r.Status) ∧
    jGet (resultFields r) "data" =
      (if r.Data.isEmpty then none else some (Json.obj r.Data)) ∧
    jGet (resultFields r) "errors" =
      (if r.Errors.isEmpty then none
        else some (Json.arr (r.Errors.map Json.str))) := by
  unfold resultFields
  refine ⟨?_, ?_, ?_, ?_⟩ <;>
    simp [jGet_append, jGet_ite_single_ne, jGet_ite_single_self, jGet,
      Option.or_none, Option.none_or, match_some_id]

/-- Result encode/decode round trip. -/
theorem unmarshal_marshal_result (r : Result) :
    unmarshalResult (marshalResult r) = some r := by
  obtain ⟨hid, hstatus, hdata, herrors⟩ := jGet_resultFields r
  show unmarshalResult (Json.obj (resultFields r)) = some r
  simp only [unmarshalResult]
  rw [decStrField_str _ _ _ hid, decStrField_str _ _ _ hstatus,
    decJsonMapField_opt _ _ _ hdata, decStrListField_opt _ _ _ herrors]
  rfl

/-- Looking up each field of an encoded `PostalError`. -/
theorem jGet_postalErrorFields (e : PostalError) :
    jGet (postalErrorFields e) "code" = some (Json.str e.Code) ∧
    jGet (postalErrorFields e) "message" = some (Json.str e.Message) ∧
    jGet (postalErrorFields e) "details" =
      (if e.Details.isEmpty then none else some (Json.obj e.Details)) := by
  unfold postalErrorFields
  refine ⟨?_, ?_, ?_⟩ <;>
    simp [jGet_append, jGet_ite_single_ne, jGet_ite_single_self, jGet,
      Option.or_none, Option.none_or, match_some_id]

/-- PostalError encode/decode round trip: everything is restored except the
unserialized `StatusCode`, which decodes as zero. -/
theorem unmarshal_marshal_postal_error (e : PostalError) :
    unmarshalPostalError (marshalPostalError e) =
      some { e with StatusCode := 0 } := by
  obtain ⟨hcode, hmsg, hdetails⟩ := jGet_postalErrorFields e
  show unmarshalPostalError (Json.obj (postalErrorFields e)) = _
  simp only [unmarshalPostalError]
  rw [decStrField_str _ _ _ hcode, decStrField_str _ _ _ hmsg,
    decJsonMapField_opt _ _ _ hdetails]
  rfl

/-- Key membership through an omitted-when-empty segment. -/
theorem mem_keys_ite_single {c : Prop} [Decidable c] (k : String) (x : Json)
    (n : String) :
    (n ∈ (if c then ([] : List (String × Json)) else [(k, x)]).map Prod.fst) ↔
      ¬c ∧ n = k := by
  by_cases hc : c <;> simp [hc]

/-- Key membership through an omitted-when-empty string field. -/
theorem mem_keys_optStrField (k v n : String) :
    (n ∈ (optStrField k v).map Prod.fst) ↔ ¬(v = "") ∧ n = k := by
  unfold optStrField
  exact mem_keys_ite_single k (Json.str v) n

/-- Pair membership in an omitted-when-empty segment. -/
theorem mem_ite_single {c : Prop} [Decidable c] (k : String) (x : Json)
    (p : String × Json) :
    (p ∈ (if c then ([] : List (String × Json)) else [(k, x)])) ↔
      ¬c ∧ p = (k, x) := by
  by_cases hc : c <;> simp [hc]

/-- Pair membership in an omitted-when-empty string field. -/
theorem mem_optStrField (k v : String) (p : String × Json) :
    (p ∈ optStrField k v) ↔ ¬(v = "") ∧ p = (k, Json.str v) := by
  unfold optStrField
  exact mem_ite_single k (Json.str v) p

/-- Claim C6 (amended): encoding then decoding a `Message`, `RawMessage`,
`Attachment`, `Result` or `PostalError` restores every serialized field; the
`PostalError` `StatusCode` (json tag `-`) is not serialized and decodes as 0.
Of `Message`'s optional fields, `sender`, `tag`, `reply_to`, `plain_body`,
`html_body`, `headers`, `attachments` are omitted from the encoding when
empty, but `cc` and `bcc` carry no `omitempty` and always appear (as `null`
when empty). -/
theorem json_round_trip_and_omitempty (m : Message) (rm : RawMessage)
    (a : Attachment) (r : Result) (e : PostalError) :
    unmarshalMessage (marshalMessage m) = some m ∧
    unmarshalRawMessage (marshalRawMessage rm) = some rm ∧
    unmarshalAttachment (marshalAttachment a) = some a ∧
    unmarshalResult (marshalResult r) = some r ∧
    unmarshalPostalError (marshalPostalError e) =
      some { e with StatusCode := 0 } ∧
    (m.Sender = "" → "sender" ∉ jsonKeys (marshalMessage m)) ∧
    (m.Tag = "" → "tag" ∉ jsonKeys (marshalMessage m)) ∧
    (m.ReplyTo = "" → "reply_to" ∉ jsonKeys (marshalMessage m)) ∧
    (m.Body = "" → "plain_body" ∉ jsonKeys (marshalMessage m)) ∧
    (m.HTMLBody = "" → "html_body" ∉ jsonKeys (marshalMessage m)) ∧
    (m.Headers = [] → "headers" ∉ jsonKeys (marshalMessage m)) ∧
    (m.Attachments = [] → "attachments" ∉ jsonKeys (marshalMessage m)) ∧
    "cc" ∈ jsonKeys (marshalMessage m) ∧
    "bcc" ∈ jsonKeys (marshalMessage m) := by
  have hkeys : jsonKeys (marshalMessage m) = (messageFields m).map Prod.fst :=
    rfl
  refine ⟨unmarshal_marshal_message m, unmarshal_marshal_raw_message rm,
    unmarshal_marshal_attachment a, unmarshal_marshal_result r,
    unmarshal_marshal_postal_error e, ?_, ?_, ?_, ?_, ?_, ?_, ?_, ?_, ?_⟩ <;>
    rw [hkeys] <;> unfold messageFields
  · intro h
    simp [mem_keys_optStrField, mem_keys_ite_single, mem_optStrField,
      mem_ite_single, h]
  · intro h
    simp [mem_keys_optStrField, mem_keys_ite_single, mem_optStrField,
      mem_ite_single, h]
  · intro h
    simp [mem_keys_optStrField, mem_keys_ite_single, mem_optStrField,
      mem_ite_single, h]
  · intro h
    simp [mem_keys_optStrField, mem_keys_ite_single, mem_optStrField,
      mem_ite_single, h]
  · intro h
    simp [mem_keys_optStrField, mem_keys_ite_single, mem_optStrField,
      mem_ite_single, h]
  · intro h
    simp [mem_keys_optStrField, mem_keys_ite_single, mem_optStrField,
      mem_ite_single, h]
  · intro h
    simp [mem_keys_optStrField, mem_keys_ite_single, mem_optStrField,
      mem_ite_single, h]
  · simp
  · simp

/-- Counterexample for C6 as stated: for the scenario message, whose `CC`
list is empty, the key `cc` still appears in the encoding; and a
`PostalError` whose populated `StatusCode` is 429 does not survive the
round trip unchanged (it decodes with `StatusCode` 0). -/
theorem json_round_trip_counterexample :
    (msgBasic.CC = [] ∧ "cc" ∈ jsonKeys (marshalMessage msgBasic)) ∧
    unmarshalPostalError
        (marshalPostalError (NewPostalError "rate_limit" "rate limited" 429)) ≠
      some (NewPostalError "rate_limit" "rate limited" 429) := by
  refine ⟨⟨rfl, by decide⟩, ?_⟩
  intro h
  have h0 : (unmarshalPostalError
      (marshalPostalError (NewPostalError "rate_limit" "rate limited" 429))).map
        PostalError.StatusCode = some 0 := rfl
  rw [h] at h0
  simp [NewPostalError] at h0

/-- Witness for C6: the scenario message, whose optional fields are all
empty, round-trips and its encoding omits every `omitempty` field. -/
theorem json_round_trip_and_omitempty_witness :
    unmarshalMessage (marshalMessage msgBasic) = some msgBasic ∧
    "tag" ∉ jsonKeys (marshalMessage msgBasic) ∧
    "headers" ∉ jsonKeys (marshalMessage msgBasic) ∧
    "attachments" ∉ jsonKeys (marshalMessage msgBasic) := by
  obtain ⟨h1, _, _, _, _, _, htag, _, _, _, hheaders, hatts, _, _⟩ :=
    json_round_trip_and_omitempty msgBasic
      { Mail := "", To := [], From := "", Headers := [] }
      { Name := "", ContentType := "", Data := "" }
      { MessageID := "", Status := "", Data := [], Errors := [] }
      { Code := "", Message := "", Details := [], StatusCode := 0 }
  exact ⟨h1, htag rfl, hheaders rfl, hatts rfl⟩

end PostalGo
